import Mathlib

/-!
# minio multipart debugger (`minio-go/debug.go`): a shallow embedding

The program is a command-line shim: each handler reads flags from a
`cli.Context`, makes one call on the shared `*minio.Core` client and prints the
result with `handleOutput`, or stops the process with `log.Fatal`.

The embedding makes the effects explicit.  A handler is a function from the
context, the client (a record of the six operations, each an arbitrary
function) and, for `upload`, the file system, to a `Run`: the list of client
calls made, the list of values written to standard output, and how the handler
ended (`returned`, `fatal` for `log.Fatal`, `panicked` for a Go runtime panic).

Go strings are modelled by Lean strings (sequences of Unicode characters).
The only bytes the program inspects are `.`, the sign characters and the
decimal digits, all one-byte ASCII, so splitting and number parsing agree with
the byte-level behaviour on every UTF-8 argument; `len` is the UTF-8 byte count.
Go's `int` is the 64-bit one (`strconv.IntSize = 64`).
-/

namespace MultipartDebug

/-! ## Go standard library: `strings.Split` and `strconv.Atoi` -/

namespace strings

/-- Go `strings.Split(s, sep)` for a one-byte separator, on the characters of
`s`: the fields between consecutive separators, in order.  The result is never
empty: a string without the separator is returned whole as the only field. -/
def splitChars (sep : Char) : List Char → List (List Char)
  | [] => [[]]
  | c :: cs =>
    if c = sep then [] :: splitChars sep cs
    else
      match splitChars sep cs with
      | [] => [[c]]
      | f :: fs => (c :: f) :: fs

/-- Go `strings.Split(s, sep)` with `sep` a single ASCII character. -/
def Split (s : String) (sep : Char) : List String :=
  (splitChars sep s.data).map String.mk

end strings

namespace strconv

/-- The two sentinel errors of package `strconv`: `ErrRange` ("value out of
range") and the invalid-digits error ("invalid syntax"). -/
inductive ErrKind where
  | ErrRange
  | ErrInvalid
  deriving DecidableEq

/-- Go `strconv.NumError`: the failing function, the input and the reason. -/
structure NumError where
  Func : String
  Num : String
  Err : ErrKind
  deriving DecidableEq

/-- Go `strconv.IntSize` on the 64-bit targets. -/
def intSize : Nat := 64

/-- Go `len(s)`: the number of bytes of the UTF-8 encoding. -/
def len (s : List Char) : Nat := (s.map Char.utf8Size).sum

/-- Conversion `int64(x)`: two's-complement wrap into `[-2^63, 2^63)`. -/
def toInt64 (x : Int) : Int := (x + 2 ^ 63) % 2 ^ 64 - 2 ^ 63

/-- The invalid-digits `NumError` for function `fn` and input `str`. -/
def invalidError (fn : String) (str : List Char) : NumError :=
  ⟨fn, String.mk str, ErrKind.ErrInvalid⟩

/-- The out-of-range `NumError` for function `fn` and input `str`. -/
def rangeError (fn : String) (str : List Char) : NumError :=
  ⟨fn, String.mk str, ErrKind.ErrRange⟩

/-- The digit loop of `ParseUint(s, 10, 0)`: `n` is the `uint64` accumulator,
`cutoff = maxUint64/10 + 1`, `maxVal = 1<<64 - 1`.  A byte that is not a
decimal digit is an invalid-digits error (for base 10 a letter is a digit value
`>= base`, and `_` is only accepted for base 0).  On overflow the loop returns
`maxVal` together with a range error. -/
def parseUintLoop (s0 : List Char) (cutoff maxVal : Nat) :
    List Char → Nat → Nat × Option NumError
  | [], n => (n, none)
  | c :: cs, n =>
    if '0'.toNat ≤ c.toNat ∧ c.toNat ≤ '9'.toNat then
      let d := c.toNat - '0'.toNat
      if n ≥ cutoff then (maxVal, some (rangeError "ParseUint" s0))
      else
        let n10 := (n * 10) % 2 ^ 64
        let n1 := (n10 + d) % 2 ^ 64
        if n1 < n10 ∨ n1 > maxVal then (maxVal, some (rangeError "ParseUint" s0))
        else parseUintLoop s0 cutoff maxVal cs n1
    else (0, some (invalidError "ParseUint" s0))

/-- Go `strconv.ParseUint(s, 10, 0)`. -/
def ParseUint (s : List Char) : Nat × Option NumError :=
  if s = [] then (0, some (invalidError "ParseUint" s))
  else parseUintLoop s ((2 ^ 64 - 1) / 10 + 1) (2 ^ intSize - 1) s 0

/-- The range check that ends `ParseInt`: `un` is what `ParseUint` returned
(`maxVal` after a range error), `cutoff = 1 << (IntSize-1)`. -/
def parseIntRange (s0 : List Char) (neg : Bool) (un : Nat) : Int × Option NumError :=
  let cutoff : Nat := 2 ^ (intSize - 1)
  if neg = false ∧ un ≥ cutoff then
    (toInt64 ((cutoff : Int) - 1), some (rangeError "ParseInt" s0))
  else if neg = true ∧ un > cutoff then
    (toInt64 (-(cutoff : Int)), some (rangeError "ParseInt" s0))
  else (if neg then toInt64 (-(toInt64 un)) else toInt64 un, none)

/-- Go `strconv.ParseInt(s, 10, 0)`: an optional sign, then `ParseUint`; an
error of `ParseUint` other than a range error is returned (renamed), anything
else goes through the range check. -/
def ParseInt (s : List Char) : Int × Option NumError :=
  match s with
  | [] => (0, some (invalidError "ParseInt" s))
  | c :: rest =>
    let neg := decide (c = '-')
    let body := if c = '+' then rest else if c = '-' then rest else s
    let r := ParseUint body
    match r.2 with
    | some e =>
      if e.Err ≠ ErrKind.ErrRange then (0, some ⟨"ParseInt", String.mk s, e.Err⟩)
      else parseIntRange s neg r.1
    | none => parseIntRange s neg r.1

/-- The digit loop of the fast path of `Atoi`: `ch -= '0'; if ch > 9` rejects
every byte that is not a decimal digit.  At most 18 digits are read here, so
`n*10 + int(ch)` stays below `10^18` and never wraps. -/
def atoiLoop : List Char → Int → Option Int
  | [], n => some n
  | ch :: cs, n =>
    if '0'.toNat ≤ ch.toNat ∧ ch.toNat - '0'.toNat ≤ 9 then
      atoiLoop cs (n * 10 + ((ch.toNat - '0'.toNat : Nat) : Int))
    else none

/-- Go `strconv.Atoi(s)` on the characters of `s`: the fast path for inputs of
1 to 18 bytes, `ParseInt(s, 10, 0)` otherwise (with the error's `Func`
renamed). -/
def atoiChars (s : List Char) : Int × Option NumError :=
  let sLen := len s
  if intSize = 32 ∧ (0 < sLen ∧ sLen < 10) ∨ intSize = 64 ∧ (0 < sLen ∧ sLen < 19) then
    match s with
    | [] => (0, some (invalidError "Atoi" s))
    | c :: rest =>
      let signed := decide (c = '-' ∨ c = '+')
      let body := if signed then rest else s
      if signed = true ∧ len body < 1 then (0, some (invalidError "Atoi" s))
      else
        match atoiLoop body 0 with
        | none => (0, some (invalidError "Atoi" s))
        | some n => (if c = '-' then -n else n, none)
  else
    let r := ParseInt s
    (r.1, r.2.map fun e => ⟨"Atoi", e.Num, e.Err⟩)

/-- Go `strconv.Atoi(s)`. -/
def Atoi (s : String) : Int × Option NumError := atoiChars s.data

end strconv

/-! ## The client library and the environment -/

/-- A Go `error` value returned by the client library or by package `os`; the
program only ever asks for its text (`err.Error()`). -/
structure GoError where
  Error : String
  deriving DecidableEq

/-- Package `encrypt`: the server-side encryption chosen for a new upload.
`NewSSE` is the value `encrypt.NewSSE()` returns. -/
inductive ServerSide where
  | NewSSE
  deriving DecidableEq

/-- The one field of `minio.PutObjectOptions` the program sets; `none` is the
nil interface of `var sse encrypt.ServerSide`. -/
structure PutObjectOptions where
  ServerSideEncryption : Option ServerSide
  deriving DecidableEq

/-- Go `minio.CompletePart`. -/
structure CompletePart where
  PartNumber : Int
  ETag : String
  deriving DecidableEq

/-- An open `*os.File`. -/
structure File where
  name : String
  deriving DecidableEq

/-- The parameters of `Core.NewMultipartUpload(ctx, bucket, object, opts)`. -/
structure NewMultipartUploadArgs where
  bucket : String
  object : String
  opts : PutObjectOptions
  deriving DecidableEq

/-- The parameters of
`Core.PutObjectPart(ctx, bucket, object, uploadID, partID, data, size, opts)`;
the options are the empty `minio.PutObjectPartOptions{}`. -/
structure PutObjectPartArgs where
  bucket : String
  object : String
  uploadID : String
  partID : Int
  data : File
  size : Int
  deriving DecidableEq

/-- The parameters of
`Core.CompleteMultipartUpload(ctx, bucket, object, uploadID, parts, opts)`. -/
structure CompleteMultipartUploadArgs where
  bucket : String
  object : String
  uploadID : String
  parts : List CompletePart
  opts : PutObjectOptions
  deriving DecidableEq

/-- The parameters of the upstream minio-go v7
`Core.ListMultipartUploads(ctx, bucket, prefix, keyMarker, uploadIDMarker,
delimiter, maxUploads)`, in that order (`pfx` is the parameter `prefix`). -/
structure ListMultipartUploadsArgs where
  bucket : String
  pfx : String
  keyMarker : String
  uploadIDMarker : String
  delimiter : String
  maxUploads : Int
  deriving DecidableEq

/-- The parameters of
`Core.ListObjectParts(ctx, bucket, object, uploadID, partNumberMarker, maxParts)`. -/
structure ListObjectPartsArgs where
  bucket : String
  object : String
  uploadID : String
  partNumberMarker : Int
  maxParts : Int
  deriving DecidableEq

/-- The parameters of `Core.AbortMultipartUpload(ctx, bucket, object, uploadID)`. -/
structure AbortMultipartUploadArgs where
  bucket : String
  object : String
  uploadID : String
  deriving DecidableEq

/-- The client `*minio.Core` (`debugClient`): six operations, each an arbitrary
function of its parameters.  `R` is the type of the result structures the
library returns (the program never looks inside them); `NewMultipartUpload`
returns the upload id, a string; `AbortMultipartUpload` returns only an error
(`none` is `nil`).  Every call is made with `context.Background()`. -/
structure Core (R : Type) where
  NewMultipartUpload : NewMultipartUploadArgs → Except GoError String
  PutObjectPart : PutObjectPartArgs → Except GoError R
  CompleteMultipartUpload : CompleteMultipartUploadArgs → Except GoError R
  ListMultipartUploads : ListMultipartUploadsArgs → Except GoError R
  ListObjectParts : ListObjectPartsArgs → Except GoError R
  AbortMultipartUpload : AbortMultipartUploadArgs → Option GoError

/-- One call on the client, as it appears in the record of a run. -/
inductive Call where
  | NewMultipartUpload (a : NewMultipartUploadArgs)
  | PutObjectPart (a : PutObjectPartArgs)
  | CompleteMultipartUpload (a : CompleteMultipartUploadArgs)
  | ListMultipartUploads (a : ListMultipartUploadsArgs)
  | ListObjectParts (a : ListObjectPartsArgs)
  | AbortMultipartUpload (a : AbortMultipartUploadArgs)
  deriving DecidableEq

/-- The part of package `os` the program uses: `os.Open(name)` and
`f.Stat()`, of which only `Size()` is read. -/
structure OS where
  Open : String → Except GoError File
  Stat : File → Except GoError Int

/-- The `*cli.Context` of a subcommand: the value of each flag by name (the
zero value when the flag is not given) and the positional arguments. -/
structure Context where
  StringFlag : String → String
  IntFlag : String → Int
  BoolFlag : String → Bool
  Args : List String

/-! ## Output and outcomes -/

/-- The values the program hands to `handleOutput(v interface{})`. -/
inductive Value (R : Type) where
  | str (vstr : String)
  | result (r : R)
  | statusMsg (Status : Bool) (Msg : String)
  | status (Status : Bool)
  deriving DecidableEq

/-- One write to standard output: `os.Stdout.WriteString(vstr)` or
`os.Stdout.Write(out)` with `out` the indented JSON of `v`. -/
inductive Written (R : Type) where
  | WriteString (vstr : String)
  | WriteJSON (v : Value R)
  deriving DecidableEq

/-- Go `handleOutput`: a string is written as it is, anything else as
`json.MarshalIndent(v, "", "  ")`. -/
def handleOutput {R : Type} (v : Value R) : Written R :=
  match v with
  | .str vstr => .WriteString vstr
  | .result r => .WriteJSON (.result r)
  | .statusMsg st msg => .WriteJSON (.statusMsg st msg)
  | .status st => .WriteJSON (.status st)

/-- The argument of a `log.Fatal(err)`. -/
inductive Fatal where
  | numError (e : strconv.NumError)
  | error (e : GoError)
  deriving DecidableEq

/-- A Go runtime panic: an index out of range, or a method call on a nil
interface. -/
inductive Panic where
  | indexOutOfRange (index : Nat) (length : Nat)
  | nilDereference
  deriving DecidableEq

/-- How a handler ends: it returns, `log.Fatal` prints the error and exits with
status 1, or the runtime panics. -/
inductive Outcome where
  | returned
  | fatal (err : Fatal)
  | panicked (p : Panic)
  deriving DecidableEq

/-- What a handler did: the client calls in order, the writes to standard
output in order (one per `handleOutput`), and how it ended. -/
structure Run (R : Type) where
  calls : List Call
  stdout : List (Written R)
  outcome : Outcome
  deriving DecidableEq

/-! ## The handlers -/

/-- Go `debugNewMultipart`.  `cli.ShowCommandHelp` after `log.Fatal` is never
reached. -/
def debugNewMultipart {R : Type} (debugClient : Core R) (ctx : Context) : Run R :=
  let bucketName := ctx.StringFlag "bucket"
  let objectName := ctx.StringFlag "object"
  let sse : Option ServerSide := if ctx.BoolFlag "encrypt" then some ServerSide.NewSSE else none
  let args : NewMultipartUploadArgs := ⟨bucketName, objectName, ⟨sse⟩⟩
  match debugClient.NewMultipartUpload args with
  | .error err => ⟨[.NewMultipartUpload args], [], .fatal (.error err)⟩
  | .ok result => ⟨[.NewMultipartUpload args], [handleOutput (.str result)], .returned⟩

/-- Go `debugUploadPart`.  The error of `f.Stat()` is discarded, so after a
failed `Stat` the call `fi.Size()` is on a nil interface. -/
def debugUploadPart {R : Type} (debugClient : Core R) (os : OS) (ctx : Context) : Run R :=
  let bucketName := ctx.StringFlag "bucket"
  let objectName := ctx.StringFlag "object"
  let uploadID := ctx.StringFlag "uploadid"
  let partNum := ctx.IntFlag "number"
  let filePath := ctx.StringFlag "file"
  match os.Open filePath with
  | .error err => ⟨[], [], .fatal (.error err)⟩
  | .ok f =>
    match os.Stat f with
    | .error _ => ⟨[], [], .panicked .nilDereference⟩
    | .ok size =>
      let args : PutObjectPartArgs := ⟨bucketName, objectName, uploadID, partNum, f, size⟩
      match debugClient.PutObjectPart args with
      | .error err => ⟨[.PutObjectPart args], [], .fatal (.error err)⟩
      | .ok part => ⟨[.PutObjectPart args], [handleOutput (.result part)], .returned⟩

/-- The body of the loop of `debugCompleteMultipart` for one argument `part`:
split at every `.`, parse `split[0]`, take `split[1]`.  `log.Fatal` and the
index panic end the handler. -/
def completePart (part : String) : Except Outcome CompletePart :=
  let split := strings.Split part '.'
  match split[0]? with
  | none => .error (.panicked (.indexOutOfRange 0 split.length))
  | some first =>
    let r := strconv.Atoi first
    match r.2 with
    | some err => .error (.fatal (.numError err))
    | none =>
      match split[1]? with
      | none => .error (.panicked (.indexOutOfRange 1 split.length))
      | some md5sum => .ok ⟨r.1, md5sum⟩

/-- The loop `for _, part := range parts` of `debugCompleteMultipart`, with
`uparts` the slice built so far. -/
def completeLoop : List String → List CompletePart → Except Outcome (List CompletePart)
  | [], uparts => .ok uparts
  | part :: rest, uparts =>
    match completePart part with
    | .error o => .error o
    | .ok p => completeLoop rest (uparts ++ [p])

/-- Go `debugCompleteMultipart`. -/
def debugCompleteMultipart {R : Type} (debugClient : Core R) (ctx : Context) : Run R :=
  let bucketName := ctx.StringFlag "bucket"
  let objectName := ctx.StringFlag "object"
  let uploadID := ctx.StringFlag "uploadid"
  let parts := ctx.Args
  match completeLoop parts [] with
  | .error o => ⟨[], [], o⟩
  | .ok uparts =>
    let args : CompleteMultipartUploadArgs := ⟨bucketName, objectName, uploadID, uparts, ⟨none⟩⟩
    match debugClient.CompleteMultipartUpload args with
    | .error err => ⟨[.CompleteMultipartUpload args], [], .fatal (.error err)⟩
    | .ok result => ⟨[.CompleteMultipartUpload args], [handleOutput (.result result)], .returned⟩

/-- Go `debugListMultipartUploads`.  The client is called with the positional
arguments `bucketName, keyMarker, uploadIDMarker, prefix, delimiter, maxuploads`
(the local `prefix` is `pfx` here). -/
def debugListMultipartUploads {R : Type} (debugClient : Core R) (ctx : Context) : Run R :=
  let bucketName := ctx.StringFlag "bucket"
  let pfx := ctx.StringFlag "prefix"
  let keyMarker := ctx.StringFlag "keymarker"
  let uploadIDMarker := ctx.StringFlag "uploadidmarker"
  let delimiter := ""
  let maxuploads := ctx.IntFlag "maxuploads"
  let delimiter := if ctx.BoolFlag "delimiter" then "/" else delimiter
  let args : ListMultipartUploadsArgs :=
    ⟨bucketName, keyMarker, uploadIDMarker, pfx, delimiter, maxuploads⟩
  match debugClient.ListMultipartUploads args with
  | .error err => ⟨[.ListMultipartUploads args], [], .fatal (.error err)⟩
  | .ok result => ⟨[.ListMultipartUploads args], [handleOutput (.result result)], .returned⟩

/-- Go `debugListUploadParts`. -/
def debugListUploadParts {R : Type} (debugClient : Core R) (ctx : Context) : Run R :=
  let bucketName := ctx.StringFlag "bucket"
  let objectName := ctx.StringFlag "object"
  let uploadID := ctx.StringFlag "uploadid"
  let partmarker := ctx.IntFlag "partmarker"
  let maxParts := ctx.IntFlag "maxparts"
  let args : ListObjectPartsArgs := ⟨bucketName, objectName, uploadID, partmarker, maxParts⟩
  match debugClient.ListObjectParts args with
  | .error err => ⟨[.ListObjectParts args], [], .fatal (.error err)⟩
  | .ok result => ⟨[.ListObjectParts args], [handleOutput (.result result)], .returned⟩

/-- Go `debugAbortMultipartUpload`. -/
def debugAbortMultipartUpload {R : Type} (debugClient : Core R) (ctx : Context) : Run R :=
  let bucketName := ctx.StringFlag "bucket"
  let objectName := ctx.StringFlag "object"
  let uploadID := ctx.StringFlag "uploadid"
  let args : AbortMultipartUploadArgs := ⟨bucketName, objectName, uploadID⟩
  match debugClient.AbortMultipartUpload args with
  | some err => ⟨[.AbortMultipartUpload args], [handleOutput (.statusMsg false err.Error)], .returned⟩
  | none => ⟨[.AbortMultipartUpload args], [handleOutput (.status true)], .returned⟩

/-! ## Vocabulary of the specification -/

/-- The text of a completion argument before its first `.` (the whole argument
when it has none). -/
def firstField (part : String) : String :=
  String.mk (part.data.takeWhile fun c => decide (c ≠ '.'))

/-- A completion argument is malformed when the text before its first `.` is
not accepted by `strconv.Atoi` as a decimal `int`, or when it has no `.`. -/
def malformed (part : String) : Prop :=
  (strconv.Atoi (firstField part)).2 ≠ none ∨ '.' ∉ part.data

instance : DecidablePred malformed := fun part => by
  unfold malformed
  exact inferInstance

/-- A handler ended by stopping the process: `log.Fatal` or a panic. -/
def Outcome.terminated : Outcome → Bool
  | .returned => false
  | .fatal _ => true
  | .panicked _ => true

/-! ## Concrete contexts and clients for the examples -/

/-- The context of a command line: the string and integer flags given with
their values, the boolean flags given, and the positional arguments.  A flag
that is not given has the zero value of its type. -/
def Context.ofFlags (strs : List (String × String)) (ints : List (String × Int))
    (bools : List String) (args : List String) : Context :=
  ⟨fun k => (strs.lookup k).getD "", fun k => (ints.lookup k).getD 0,
    fun k => bools.contains k, args⟩

/-- A client whose operations all answer `reply` (the upload id for
`NewMultipartUpload`), and whose abort answers `abort`. -/
def Core.const (reply : Except GoError String) (abort : Option GoError) : Core String :=
  ⟨fun _ => reply, fun _ => reply, fun _ => reply, fun _ => reply, fun _ => reply,
    fun _ => abort⟩

/-- A file system with one readable file of `size` bytes at `path`. -/
def OS.single (path : String) (size : Int) : OS :=
  ⟨fun p => if p = path then .ok ⟨p⟩ else .error ⟨"open " ++ p ++ ": no such file or directory"⟩,
    fun _ => .ok size⟩

/-! ## Lemmas: `strings.Split` -/

namespace strings

theorem splitChars_ne_nil (sep : Char) (cs : List Char) : splitChars sep cs ≠ [] := by
  induction cs with
  | nil => simp [splitChars]
  | cons c cs ih =>
    by_cases hc : c = sep
    · simp [splitChars, hc]
    · cases hs : splitChars sep cs <;> simp [splitChars, hc, hs]

theorem splitChars_of_not_mem (sep : Char) (cs : List Char) (h : sep ∉ cs) :
    splitChars sep cs = [cs] := by
  induction cs with
  | nil => simp [splitChars]
  | cons c cs ih =>
    have hc : ¬ c = sep := fun e => h (by simp [e])
    have hcs : sep ∉ cs := fun e => h (List.mem_cons_of_mem _ e)
    simp [splitChars, hc, ih hcs]

theorem splitChars_append (sep : Char) (a t : List Char) (h : sep ∉ a) :
    splitChars sep (a ++ sep :: t) = a :: splitChars sep t := by
  induction a with
  | nil => simp [splitChars]
  | cons c cs ih =>
    have hc : ¬ c = sep := fun e => h (by simp [e])
    have hcs : sep ∉ cs := fun e => h (List.mem_cons_of_mem _ e)
    simp [splitChars, hc, ih hcs]

/-- A string with a separator splits at its first separator. -/
theorem exists_first_sep (sep : Char) (cs : List Char) (h : sep ∈ cs) :
    ∃ a t, cs = a ++ sep :: t ∧ sep ∉ a := by
  induction cs with
  | nil => simp at h
  | cons c cs ih =>
    by_cases hc : c = sep
    · exact ⟨[], cs, by simp [hc], by simp⟩
    · have hcs : sep ∈ cs := by
        rcases List.mem_cons.mp h with e | e
        · exact absurd e.symm hc
        · exact e
      obtain ⟨a, t, e, ha⟩ := ih hcs
      refine ⟨c :: a, t, by simp [e], ?_⟩
      intro hm
      rcases List.mem_cons.mp hm with e' | e'
      · exact hc e'.symm
      · exact ha e'

theorem takeWhile_of_not_mem (sep : Char) (a : List Char) (h : sep ∉ a) :
    a.takeWhile (fun c => decide (c ≠ sep)) = a := by
  induction a with
  | nil => rfl
  | cons c cs ih =>
    have hc : ¬ c = sep := fun e => h (by simp [e])
    have hcs : sep ∉ cs := fun e => h (List.mem_cons_of_mem _ e)
    rw [List.takeWhile_cons, ih hcs]
    simp [hc]

theorem takeWhile_append_sep (sep : Char) (a t : List Char) (h : sep ∉ a) :
    (a ++ sep :: t).takeWhile (fun c => decide (c ≠ sep)) = a := by
  induction a with
  | nil => simp [List.takeWhile]
  | cons c cs ih =>
    have hc : ¬ c = sep := fun e => h (by simp [e])
    have hcs : sep ∉ cs := fun e => h (List.mem_cons_of_mem _ e)
    rw [List.cons_append, List.takeWhile_cons, ih hcs]
    simp [hc]

end strings

/-! ## Lemmas: the decimal rendering `Nat.repr` -/

namespace strconv

theorem toDigitsCore_acc (fuel : Nat) : ∀ (n : Nat) (acc : List Char),
    Nat.toDigitsCore 10 fuel n acc = Nat.toDigitsCore 10 fuel n [] ++ acc := by
  induction fuel with
  | zero => intro n acc; simp [Nat.toDigitsCore]
  | succ f ih =>
    intro n acc
    simp only [Nat.toDigitsCore]
    by_cases h : n / 10 = 0
    · simp [h]
    · simp only [h, if_false]
      rw [ih (n / 10) (Nat.digitChar (n % 10) :: acc), ih (n / 10) [Nat.digitChar (n % 10)]]
      simp

theorem toDigitsCore_fuel (f : Nat) : ∀ (n : Nat), n < f → ∀ g, n < g →
    Nat.toDigitsCore 10 f n [] = Nat.toDigitsCore 10 g n [] := by
  induction f with
  | zero => intro n h; omega
  | succ f ih =>
    intro n hn g hg
    cases g with
    | zero => omega
    | succ g =>
      simp only [Nat.toDigitsCore]
      by_cases h : n / 10 = 0
      · simp [h]
      · simp only [h, if_false]
        rw [toDigitsCore_acc f, toDigitsCore_acc g, ih (n / 10) (by omega) g (by omega)]

theorem toDigits_lt (n : Nat) (h : n < 10) : Nat.toDigits 10 n = [Nat.digitChar n] := by
  have h0 : n / 10 = 0 := by omega
  have h1 : n % 10 = n := by omega
  simp [Nat.toDigits, Nat.toDigitsCore, h0, h1]

theorem toDigits_ge (n : Nat) (h : 10 ≤ n) :
    Nat.toDigits 10 n = Nat.toDigits 10 (n / 10) ++ [Nat.digitChar (n % 10)] := by
  have h0 : ¬ n / 10 = 0 := by omega
  have key : Nat.toDigitsCore 10 (n + 1) n [] =
      Nat.toDigitsCore 10 n (n / 10) [Nat.digitChar (n % 10)] := by
    simp only [Nat.toDigitsCore, h0, if_false]
  unfold Nat.toDigits
  rw [key, toDigitsCore_acc, toDigitsCore_fuel n (n / 10) (by omega) (n / 10 + 1) (by omega)]

theorem digitChar_toNat : ∀ m, m < 10 → (Nat.digitChar m).toNat = 48 + m := by decide

theorem digitChar_utf8Size : ∀ m, m < 10 → (Nat.digitChar m).utf8Size = 1 := by decide

theorem digitChar_ne : ∀ m, m < 10 →
    Nat.digitChar m ≠ '.' ∧ Nat.digitChar m ≠ '-' ∧ Nat.digitChar m ≠ '+' := by decide

/-- Every character of a decimal rendering is a digit character. -/
theorem toDigits_digit (n : Nat) : ∀ c ∈ Nat.toDigits 10 n, ∃ m, m < 10 ∧ c = Nat.digitChar m := by
  induction n using Nat.strong_induction_on with
  | _ n ih =>
    by_cases h : n < 10
    · rw [toDigits_lt n h]
      intro c hc
      exact ⟨n, h, by simpa using hc⟩
    · rw [toDigits_ge n (by omega)]
      intro c hc
      rcases List.mem_append.mp hc with hc | hc
      · exact ih (n / 10) (by omega) c hc
      · exact ⟨n % 10, by omega, by simpa using hc⟩

theorem toDigits_ne_nil (n : Nat) : Nat.toDigits 10 n ≠ [] := by
  by_cases h : n < 10
  · rw [toDigits_lt n h]; simp
  · rw [toDigits_ge n (by omega)]; simp

theorem toDigits_no_dot (n : Nat) : '.' ∉ Nat.toDigits 10 n := by
  intro h
  obtain ⟨m, hm, e⟩ := toDigits_digit n _ h
  exact (digitChar_ne m hm).1 e.symm

end strconv

/-! ## Lemmas: `strconv.Atoi` reads a decimal rendering back -/

namespace strconv

theorem atoiLoop_append (xs ys : List Char) : ∀ acc : Int,
    atoiLoop (xs ++ ys) acc = (atoiLoop xs acc).bind (atoiLoop ys) := by
  induction xs with
  | nil => intro acc; simp [atoiLoop]
  | cons c cs ih =>
    intro acc
    by_cases h : '0'.toNat ≤ c.toNat ∧ c.toNat - '0'.toNat ≤ 9
    · simp only [List.cons_append, atoiLoop, h, and_self, if_true]
      exact ih _
    · simp only [List.cons_append, atoiLoop, h, if_false, Option.none_bind]

theorem atoiLoop_digitChar (m : Nat) (hm : m < 10) (acc : Int) :
    atoiLoop [Nat.digitChar m] acc = some (acc * 10 + (m : Int)) := by
  have h := digitChar_toNat m hm
  have h0 : '0'.toNat = 48 := by decide
  simp only [atoiLoop, h, h0]
  have h1 : 48 ≤ 48 + m ∧ 48 + m - 48 ≤ 9 := by omega
  have h2 : 48 + m - 48 = m := by omega
  have h3 : m ≤ 9 := by omega
  simp only [h1, and_self, if_true, h2, h3, Nat.le_add_right]

theorem atoiLoop_toDigits (n : Nat) : atoiLoop (Nat.toDigits 10 n) 0 = some (n : Int) := by
  induction n using Nat.strong_induction_on with
  | _ n ih =>
    by_cases h : n < 10
    · rw [toDigits_lt n h, atoiLoop_digitChar n h]; simp
    · rw [toDigits_ge n (by omega), atoiLoop_append, ih (n / 10) (by omega), Option.some_bind,
        atoiLoop_digitChar (n % 10) (by omega)]
      congr 1
      omega

theorem parseUintLoop_append (s0 : List Char) (cutoff maxVal : Nat) (xs ys : List Char) :
    ∀ acc m : Nat, parseUintLoop s0 cutoff maxVal xs acc = (m, none) →
      parseUintLoop s0 cutoff maxVal (xs ++ ys) acc = parseUintLoop s0 cutoff maxVal ys m := by
  induction xs with
  | nil =>
    intro acc m h
    simp only [parseUintLoop, Prod.mk.injEq, and_true] at h
    simp [h]
  | cons c cs ih =>
    intro acc m h
    simp only [List.cons_append, parseUintLoop] at h ⊢
    split_ifs at h ⊢ with h1 h2 h3
    · simp at h
    · simp at h
    · exact ih _ _ h
    · simp at h

theorem parseUintLoop_digitChar (s0 : List Char) (m : Nat) (hm : m < 10) (acc : Nat)
    (hacc : acc * 10 + m < 2 ^ 64) :
    parseUintLoop s0 ((2 ^ 64 - 1) / 10 + 1) (2 ^ intSize - 1) [Nat.digitChar m] acc =
      (acc * 10 + m, none) := by
  have h := digitChar_toNat m hm
  have h0 : '0'.toNat = 48 := by decide
  have h9 : '9'.toNat = 57 := by decide
  simp only [parseUintLoop, h, h0, h9, intSize]
  norm_num at hacc ⊢
  have h1 : 48 + m ≤ 57 := by omega
  have h2 : ¬ (1844674407370955162 ≤ acc) := by omega
  have h3 : acc * 10 % 18446744073709551616 = acc * 10 := Nat.mod_eq_of_lt (by omega)
  have h4 : (acc * 10 + m) % 18446744073709551616 = acc * 10 + m := Nat.mod_eq_of_lt hacc
  simp only [h1, h2, h3, h4, if_true, if_false]
  have h5 : ¬ (acc * 10 + m < acc * 10 ∨ 18446744073709551615 < acc * 10 + m) := by omega
  simp only [h5, if_false]

theorem parseUintLoop_toDigits (s0 : List Char) (n : Nat) (hn : n < 2 ^ 64) :
    parseUintLoop s0 ((2 ^ 64 - 1) / 10 + 1) (2 ^ intSize - 1) (Nat.toDigits 10 n) 0 =
      (n, none) := by
  induction n using Nat.strong_induction_on with
  | _ n ih =>
    by_cases h : n < 10
    · rw [toDigits_lt n h, parseUintLoop_digitChar s0 n h 0 (by omega)]; simp
    · have hdiv : n / 10 * 10 + n % 10 = n := by omega
      rw [toDigits_ge n (by omega),
        parseUintLoop_append _ _ _ _ _ 0 (n / 10) (ih (n / 10) (by omega) (by omega)),
        parseUintLoop_digitChar s0 (n % 10) (by omega) (n / 10) (by omega), hdiv]

theorem len_cons (c : Char) (cs : List Char) : len (c :: cs) = c.utf8Size + len cs := by
  simp [len]

theorem length_le_len (cs : List Char) : cs.length ≤ len cs := by
  induction cs with
  | nil => simp [len]
  | cons c cs ih =>
    have := Char.utf8Size_pos c
    rw [len_cons, List.length_cons]
    omega

theorem toInt64_of_lt (n : Nat) (h : n < 2 ^ 63) : toInt64 (n : Int) = (n : Int) := by
  unfold toInt64
  norm_num at h ⊢
  omega

theorem toInt64_range (x : Int) : -2 ^ 63 ≤ toInt64 x ∧ toInt64 x < 2 ^ 63 := by
  unfold toInt64
  norm_num
  omega

/-- The slow path of `Atoi` on the decimal rendering of `n < 2^63`. -/
theorem ParseInt_toDigits (n : Nat) (hn : n < 2 ^ 63) :
    ParseInt (Nat.toDigits 10 n) = ((n : Int), none) := by
  have hne := toDigits_ne_nil n
  cases hs : Nat.toDigits 10 n with
  | nil => exact absurd hs hne
  | cons c rest =>
    have hc : c ∈ Nat.toDigits 10 n := by rw [hs]; simp
    obtain ⟨m, hm, e⟩ := toDigits_digit n c hc
    have hminus : ¬ c = '-' := by rw [e]; exact (digitChar_ne m hm).2.1
    have hplus : ¬ c = '+' := by rw [e]; exact (digitChar_ne m hm).2.2
    have hloop := parseUintLoop_toDigits (c :: rest) n (by norm_num at hn ⊢; omega)
    rw [hs] at hloop
    have hpu : ParseUint (c :: rest) = (n, none) := by
      unfold ParseUint
      simp only [reduceCtorEq, if_false]
      exact hloop
    have hnn : ¬ n ≥ 2 ^ (intSize - 1) := by simp only [intSize]; norm_num at hn ⊢; omega
    simp only [ParseInt, hminus, hplus, if_false, hpu, decide_False, parseIntRange, hnn,
      and_false, Bool.false_eq_true, false_and]
    rw [toInt64_of_lt n hn]

/-- `Atoi` reads the decimal rendering of every `n` in the range of `int`
back as `n`, without error. -/
theorem atoiChars_toDigits (n : Nat) (hn : n < 2 ^ 63) :
    atoiChars (Nat.toDigits 10 n) = ((n : Int), none) := by
  unfold atoiChars
  by_cases hfast : intSize = 32 ∧ (0 < len (Nat.toDigits 10 n) ∧ len (Nat.toDigits 10 n) < 10) ∨
      intSize = 64 ∧ (0 < len (Nat.toDigits 10 n) ∧ len (Nat.toDigits 10 n) < 19)
  · simp only [hfast, if_true]
    have hne := toDigits_ne_nil n
    have hloop := atoiLoop_toDigits n
    cases hs : Nat.toDigits 10 n with
    | nil => exact absurd hs hne
    | cons c rest =>
      have hc : c ∈ Nat.toDigits 10 n := by rw [hs]; simp
      obtain ⟨m, hm, e⟩ := toDigits_digit n c hc
      have hminus : ¬ c = '-' := by rw [e]; exact (digitChar_ne m hm).2.1
      have hplus : ¬ c = '+' := by rw [e]; exact (digitChar_ne m hm).2.2
      rw [hs] at hloop
      simp [hminus, hplus, hloop]
  · simp only [hfast, if_false, ParseInt_toDigits n hn, Option.map_none']

end strconv

/-! ## Lemmas: one completion argument -/

theorem split_first_rest (cs : List Char) :
    ∃ fs, strings.splitChars '.' cs = (cs.takeWhile fun c => decide (c ≠ '.')) :: fs ∧
      (fs = [] ↔ '.' ∉ cs) := by
  by_cases h : '.' ∈ cs
  · obtain ⟨a, t, e, ha⟩ := strings.exists_first_sep '.' cs h
    subst e
    rw [strings.splitChars_append '.' a t ha, strings.takeWhile_append_sep '.' a t ha]
    refine ⟨strings.splitChars '.' t, rfl, ?_⟩
    simp [strings.splitChars_ne_nil]
  · rw [strings.splitChars_of_not_mem '.' cs h, strings.takeWhile_of_not_mem '.' cs h]
    exact ⟨[], rfl, by simp [h]⟩

/-- An argument whose first field `strconv.Atoi` rejects ends in `log.Fatal`. -/
theorem completePart_of_atoi_error (part : String) (err : strconv.NumError)
    (h : (strconv.Atoi (firstField part)).2 = some err) :
    completePart part = .error (.fatal (.numError err)) := by
  obtain ⟨fs, hs, -⟩ := split_first_rest part.data
  unfold firstField at h
  simp only [completePart, strings.Split, hs, List.map_cons, List.getElem?_cons_zero, h]

/-- An argument with an accepted first field and no `.` ends in the index
panic at `split[1]`. -/
theorem completePart_of_no_dot (part : String)
    (h : (strconv.Atoi (firstField part)).2 = none) (hdot : '.' ∉ part.data) :
    completePart part = .error (.panicked (.indexOutOfRange 1 1)) := by
  obtain ⟨fs, hs, hfs⟩ := split_first_rest part.data
  have hnil : fs = [] := hfs.mpr hdot
  subst hnil
  unfold firstField at h
  simp only [completePart, strings.Split, hs, List.map_cons, List.map_nil,
    List.getElem?_cons_zero, h, List.getElem?_cons_succ, List.getElem?_nil, List.length_cons,
    List.length_nil]

/-- An argument with an accepted first field and a `.` yields a part. -/
theorem completePart_of_wellformed (part : String)
    (h : (strconv.Atoi (firstField part)).2 = none) (hdot : '.' ∈ part.data) :
    ∃ md5sum, completePart part = .ok ⟨(strconv.Atoi (firstField part)).1, md5sum⟩ := by
  obtain ⟨fs, hs, hfs⟩ := split_first_rest part.data
  cases fs with
  | nil => exact absurd hdot (hfs.mp rfl)
  | cons f fs' =>
    refine ⟨String.mk f, ?_⟩
    unfold firstField at h ⊢
    simp only [completePart, strings.Split, hs, List.map_cons, List.getElem?_cons_zero, h,
      List.getElem?_cons_succ]

theorem completePart_error_of_malformed (part : String) (h : malformed part) :
    ∃ o, completePart part = .error o ∧ o.terminated = true := by
  cases hat : (strconv.Atoi (firstField part)).2 with
  | some err => exact ⟨_, completePart_of_atoi_error part err hat, rfl⟩
  | none =>
    rcases h with h | h
    · exact absurd hat h
    · exact ⟨_, completePart_of_no_dot part hat h, rfl⟩

theorem completePart_ok_of_not_malformed (part : String) (h : ¬ malformed part) :
    ∃ p, completePart part = .ok p := by
  unfold malformed at h
  push_neg at h
  obtain ⟨md5sum, e⟩ := completePart_of_wellformed part h.1 h.2
  exact ⟨_, e⟩

theorem completePart_ok_not_malformed (part : String) (p : CompletePart)
    (h : completePart part = .ok p) : ¬ malformed part := by
  intro hm
  obtain ⟨o, e, -⟩ := completePart_error_of_malformed part hm
  rw [h] at e
  cases e

/-- The part built from `decimal ++ "." ++ rest` when `Atoi` accepts `decimal`
and `rest` is split further. -/
theorem completePart_append (ds etag tail : List Char) (v : Int) (hds : '.' ∉ ds)
    (hat : strconv.atoiChars ds = (v, none))
    (hsplit : ∃ fs, strings.splitChars '.' tail = etag :: fs) :
    completePart (String.mk ds ++ "." ++ String.mk tail) = .ok ⟨v, String.mk etag⟩ := by
  obtain ⟨fs, hfs⟩ := hsplit
  have hdata : (String.mk ds ++ "." ++ String.mk tail).data = ds ++ '.' :: tail := by
    simp [String.data_append]
  simp [completePart, strings.Split, hdata, strings.splitChars_append '.' ds tail hds, hfs,
    strconv.Atoi, hat]

/-! ## Lemmas: the range of `strconv.Atoi` -/

namespace strconv

theorem atoiLoop_bound (cs : List Char) : ∀ (acc : Int) (B : Int) (n : Int),
    0 ≤ acc → acc < B → atoiLoop cs acc = some n → 0 ≤ n ∧ n < B * 10 ^ cs.length := by
  induction cs with
  | nil =>
    intro acc B n h0 hB h
    simp only [atoiLoop, Option.some.injEq] at h
    subst h
    simpa using ⟨h0, hB⟩
  | cons c cs ih =>
    intro acc B n h0 hB h
    by_cases hd : '0'.toNat ≤ c.toNat ∧ c.toNat - '0'.toNat ≤ 9
    · simp only [atoiLoop, hd, and_self, if_true] at h
      have hd9 : ((c.toNat - '0'.toNat : Nat) : Int) ≤ 9 := by exact_mod_cast hd.2
      have hd0 : (0 : Int) ≤ ((c.toNat - '0'.toNat : Nat) : Int) := Int.ofNat_nonneg _
      have := ih (acc * 10 + ((c.toNat - '0'.toNat : Nat) : Int)) (B * 10) n (by omega)
        (by omega) h
      rw [List.length_cons, pow_succ]
      rw [mul_assoc, mul_comm (10 : Int) (10 ^ cs.length)] at this
      exact this
    · simp only [atoiLoop, hd, if_false] at h
      cases h

theorem pow_le_of_length (k : Nat) (hk : k ≤ 18) : (10 : Int) ^ k ≤ 10 ^ 18 :=
  pow_le_pow_right₀ (by norm_num) hk

theorem atoiLoop_fast_bound (body : List Char) (n : Int) (hlen : body.length ≤ 18)
    (h : atoiLoop body 0 = some n) : 0 ≤ n ∧ n < 10 ^ 18 := by
  have hb := atoiLoop_bound body 0 1 n (le_refl 0) (by norm_num) h
  rw [one_mul] at hb
  exact ⟨hb.1, lt_of_lt_of_le hb.2 (pow_le_of_length _ hlen)⟩

theorem parseIntRange_bound (s0 : List Char) (neg : Bool) (un : Nat) (v : Int)
    (h : parseIntRange s0 neg un = (v, none)) : -2 ^ 63 ≤ v ∧ v < 2 ^ 63 := by
  simp only [parseIntRange] at h
  split_ifs at h <;>
    simp only [Prod.mk.injEq, reduceCtorEq, and_false, and_true] at h <;>
    subst h <;> exact toInt64_range _

theorem ParseInt_bound (s : List Char) (v : Int) (h : ParseInt s = (v, none)) :
    -2 ^ 63 ≤ v ∧ v < 2 ^ 63 := by
  cases s with
  | nil => simp [ParseInt] at h
  | cons c rest =>
    simp only [ParseInt] at h
    split at h
    · rename_i e he
      by_cases hr : e.Err ≠ ErrKind.ErrRange
      · simp [hr] at h
      · simp only [hr, if_false] at h
        exact parseIntRange_bound _ _ _ _ h
    · exact parseIntRange_bound _ _ _ _ h

/-- Whatever `Atoi` accepts is a value of the 64-bit `int`. -/
theorem atoiChars_bound (s : List Char) (v : Int) (h : atoiChars s = (v, none)) :
    -2 ^ 63 ≤ v ∧ v < 2 ^ 63 := by
  unfold atoiChars at h
  simp only at h
  by_cases hfast : intSize = 32 ∧ (0 < len s ∧ len s < 10) ∨ intSize = 64 ∧ (0 < len s ∧ len s < 19)
  · simp only [hfast, if_true] at h
    have hlen : len s < 19 := by
      rcases hfast with hf | hf
      · simp [intSize] at hf
      · exact hf.2.2
    cases s with
    | nil => simp at h
    | cons c rest =>
      simp only at h
      generalize hbody : (if decide (c = '-' ∨ c = '+') = true then rest else c :: rest) = body
        at h
      have hbl : body.length ≤ 18 := by
        have h1 := length_le_len (c :: rest)
        rw [List.length_cons] at h1
        rw [← hbody]
        split_ifs
        · omega
        · rw [List.length_cons]; omega
      by_cases hsign : decide (c = '-' ∨ c = '+') = true ∧ len body < 1
      · simp [hsign] at h
      · simp only [hsign, if_false] at h
        cases hl : atoiLoop body 0 with
        | none => simp [hl] at h
        | some n =>
          simp only [hl, Prod.mk.injEq, and_true] at h
          have hn := atoiLoop_fast_bound body n hbl hl
          norm_num at hn ⊢
          split_ifs at h <;> omega
  · simp only [hfast, if_false, Prod.mk.injEq, Option.map_eq_none'] at h
    exact ParseInt_bound s v (Prod.ext h.1 h.2)

end strconv

/-! ## Lemmas: the loop over the completion arguments -/

theorem completeLoop_ok (args : List String) : ∀ (acc ps : List CompletePart),
    args.map completePart = ps.map Except.ok → completeLoop args acc = .ok (acc ++ ps) := by
  induction args with
  | nil =>
    intro acc ps h
    cases ps with
    | nil => simp [completeLoop]
    | cons p ps => simp at h
  | cons a rest ih =>
    intro acc ps h
    cases ps with
    | nil => simp at h
    | cons p ps =>
      simp only [List.map_cons, List.cons.injEq] at h
      simp only [completeLoop, h.1]
      rw [ih (acc ++ [p]) ps h.2]
      simp

theorem completeLoop_ok_inv (args : List String) : ∀ (acc out : List CompletePart),
    completeLoop args acc = .ok out →
      ∃ ps, out = acc ++ ps ∧ args.map completePart = ps.map Except.ok := by
  induction args with
  | nil =>
    intro acc out h
    simp only [completeLoop, Except.ok.injEq] at h
    exact ⟨[], by simp [h], rfl⟩
  | cons a rest ih =>
    intro acc out h
    simp only [completeLoop] at h
    split at h
    · cases h
    · rename_i p hp
      obtain ⟨ps, e, hmap⟩ := ih _ _ h
      exact ⟨p :: ps, by simp [e], by simp [hp, hmap]⟩

theorem completeLoop_error (pre : List String) : ∀ (a : String) (post : List String)
    (acc : List CompletePart) (o : Outcome),
    (∀ b ∈ pre, ∃ p, completePart b = .ok p) → completePart a = .error o →
      completeLoop (pre ++ a :: post) acc = .error o := by
  induction pre with
  | nil =>
    intro a post acc o _ ha
    simp only [List.nil_append, completeLoop, ha]
  | cons b pre ih =>
    intro a post acc o hpre ha
    obtain ⟨p, hp⟩ := hpre b (by simp)
    simp only [List.cons_append, completeLoop, hp]
    exact ih a post _ o (fun c hc => hpre c (List.mem_cons_of_mem _ hc)) ha

/-- A list with a malformed argument splits at its first malformed argument. -/
theorem exists_first_malformed (args : List String) (h : ∃ a ∈ args, malformed a) :
    ∃ pre a post, args = pre ++ a :: post ∧ (∀ b ∈ pre, ¬ malformed b) ∧ malformed a := by
  induction args with
  | nil => simp at h
  | cons x xs ih =>
    by_cases hx : malformed x
    · exact ⟨[], x, xs, rfl, by simp, hx⟩
    · obtain ⟨a, ha, hm⟩ := h
      have hxs : ∃ a ∈ xs, malformed a := by
        rcases List.mem_cons.mp ha with e | e
        · rw [e] at hm; exact absurd hm hx
        · exact ⟨a, e, hm⟩
      obtain ⟨pre, a', post, e, hpre, ha'⟩ := ih hxs
      refine ⟨x :: pre, a', post, by simp [e], ?_, ha'⟩
      intro b hb
      rcases List.mem_cons.mp hb with e' | e'
      · rw [e']; exact hx
      · exact hpre b e'

/-- The parses of a list of well-formed arguments. -/
theorem exists_parts_of_wellformed (args : List String) (h : ∀ a ∈ args, ¬ malformed a) :
    ∃ ps : List CompletePart, args.map completePart = ps.map Except.ok := by
  induction args with
  | nil => exact ⟨[], rfl⟩
  | cons x xs ih =>
    obtain ⟨p, hp⟩ := completePart_ok_of_not_malformed x (h x (by simp))
    obtain ⟨ps, hps⟩ := ih (fun a ha => h a (List.mem_cons_of_mem _ ha))
    exact ⟨p :: ps, by simp [hp, hps]⟩

/-! ## Parsing one completion argument -/

/-- C1 (as amended): for every `n` in the non-negative range of Go's `int`
(`n < 2^63`) and every entity tag `t` without a `.`, the loop body of
`debugCompleteMultipart` applied to `decimal(n) ++ "." ++ t` yields the part
with `PartNumber = n` and `ETag = t`. -/
theorem completePart_decimal_tag (n : Nat) (t : String) (hn : n < 2 ^ 63)
    (ht : '.' ∉ t.data) :
    completePart (Nat.repr n ++ "." ++ t) = .ok ⟨(n : Int), t⟩ :=
  completePart_append (Nat.toDigits 10 n) t.data t.data (n : Int) (strconv.toDigits_no_dot n)
    (strconv.atoiChars_toDigits n hn) ⟨[], strings.splitChars_of_not_mem '.' t.data ht⟩

/-- C1, witness: `"3.9b2cf535f27731c974343645a3985328"` yields part number 3 and
the tag after the separator. -/
theorem completePart_decimal_tag_witness :
    3 < 2 ^ 63 ∧ '.' ∉ "9b2cf535f27731c974343645a3985328".data ∧
      completePart "3.9b2cf535f27731c974343645a3985328" =
        .ok ⟨3, "9b2cf535f27731c974343645a3985328"⟩ :=
  ⟨by decide, by decide,
    completePart_decimal_tag 3 "9b2cf535f27731c974343645a3985328" (by decide) (by decide)⟩

/-- C1, counterexample: not every non-negative integer is a part number;
for `n = 2^63` the argument `"9223372036854775808.abc"` is rejected:
`strconv.Atoi` reports a range error and the handler ends in `log.Fatal`. -/
theorem completePart_decimal_beyond_int :
    Nat.repr 9223372036854775808 ++ "." ++ "abc" = "9223372036854775808.abc" ∧
    completePart "9223372036854775808.abc" =
      .error (.fatal (.numError ⟨"Atoi", "9223372036854775808", .ErrRange⟩)) ∧
    ¬ ∀ (n : Nat) (t : String), '.' ∉ t.data →
      completePart (Nat.repr n ++ "." ++ t) = .ok ⟨(n : Int), t⟩ := by
  refine ⟨by rfl, by rfl, ?_⟩
  intro h
  have h1 := h 9223372036854775808 "abc" (by decide)
  have h2 : completePart (Nat.repr 9223372036854775808 ++ "." ++ "abc") =
      .error (.fatal (.numError ⟨"Atoi", "9223372036854775808", .ErrRange⟩)) := by rfl
  rw [h2] at h1
  cases h1

/-- C7 (as amended): for every `n` in the non-negative range of Go's `int`
(`n < 2^63`) and every tag `t` that contains a `.`, parsing
`decimal(n) ++ "." ++ t` raises no error and yields `PartNumber = n`, but the
`ETag` is not `t`: it is only the text of `t` before its first `.` (it has no
`.`, and `t` is that text, a `.` and a discarded rest). -/
theorem completePart_dotted_tag (n : Nat) (t : String) (hn : n < 2 ^ 63)
    (ht : '.' ∈ t.data) :
    completePart (Nat.repr n ++ "." ++ t) = .ok ⟨(n : Int), firstField t⟩ ∧
      firstField t ≠ t ∧ '.' ∉ (firstField t).data ∧
      ∃ rest : String, t = firstField t ++ "." ++ rest := by
  obtain ⟨a, r, e, ha⟩ := strings.exists_first_sep '.' t.data ht
  have hff : firstField t = String.mk a := by
    unfold firstField
    rw [e, strings.takeWhile_append_sep '.' a r ha]
  have ht' : t = String.mk a ++ "." ++ String.mk r := by
    apply String.ext
    simp [String.data_append, e]
  rw [hff]
  refine ⟨?_, ?_, ha, String.mk r, ht'⟩
  · have hsplit : ∃ fs, strings.splitChars '.' t.data = a :: fs :=
      ⟨_, by rw [e]; exact strings.splitChars_append '.' a r ha⟩
    exact completePart_append (Nat.toDigits 10 n) a t.data (n : Int)
      (strconv.toDigits_no_dot n) (strconv.atoiChars_toDigits n hn) hsplit
  · intro hEq
    rw [← hEq] at ht
    exact ha ht

/-- C7, witness: `"3.9b2c.f535"` yields part number 3 and the tag `"9b2c"`;
`".f535"` is lost. -/
theorem completePart_dotted_tag_witness :
    3 < 2 ^ 63 ∧ '.' ∈ "9b2c.f535".data ∧
      completePart "3.9b2c.f535" = .ok ⟨3, "9b2c"⟩ ∧ "9b2c" ≠ "9b2c.f535" :=
  ⟨by decide, by decide,
    (completePart_dotted_tag 3 "9b2c.f535" (by decide) (by decide)).1,
    (completePart_dotted_tag 3 "9b2c.f535" (by decide) (by decide)).2.1⟩

/-- C7, counterexample: without a bound on `n` an error can be raised; for `n = 2^63` and
the dotted tag `"a.b"` the parsing does raise an error (`log.Fatal` with the
range error of `strconv.Atoi`) and yields no part. -/
theorem completePart_dotted_tag_beyond_int :
    Nat.repr 9223372036854775808 ++ "." ++ "a.b" = "9223372036854775808.a.b" ∧
    '.' ∈ "a.b".data ∧
    completePart "9223372036854775808.a.b" =
      .error (.fatal (.numError ⟨"Atoi", "9223372036854775808", .ErrRange⟩)) := by
  refine ⟨by rfl, by decide, by rfl⟩

/-- C2, the code at the failing input: the argument `"3"` has no `.` and is a
valid integer, so `strconv.Atoi` succeeds and `split[1]` panics with an index
out of range; the handler does not go through `log.Fatal`.  (The empty
argument does: `Atoi("")` fails.) -/
theorem complete_integer_without_dot_panics :
    completePart "3" = .error (.panicked (.indexOutOfRange 1 1)) ∧
    debugCompleteMultipart (Core.const (.ok "done") none)
        (Context.ofFlags [("bucket", "b"), ("object", "o"), ("uploadid", "u")] [] [] ["3"]) =
      ⟨[], [], .panicked (.indexOutOfRange 1 1)⟩ ∧
    completePart "" = .error (.fatal (.numError ⟨"Atoi", "", .ErrInvalid⟩)) := by
  refine ⟨by rfl, by rfl, by rfl⟩

/-! ## The completion handler -/

/-- C3: for every list of well-formed completion arguments, `debugCompleteMultipart`
makes one `CompleteMultipartUpload` call whose part list has as many entries as
there are arguments, the `i`-th entry being the parse of the `i`-th argument:
the caller's order is kept and nothing is sorted, merged or dropped. -/
theorem complete_submits_parts_in_order {R : Type} (debugClient : Core R) (ctx : Context)
    (hwf : ∀ a ∈ ctx.Args, ¬ malformed a) :
    ∃ uparts : List CompletePart,
      (debugCompleteMultipart debugClient ctx).calls =
        [.CompleteMultipartUpload ⟨ctx.StringFlag "bucket", ctx.StringFlag "object",
          ctx.StringFlag "uploadid", uparts, ⟨none⟩⟩] ∧
      uparts.length = ctx.Args.length ∧
      ctx.Args.map completePart = uparts.map Except.ok ∧
      ∀ (i : Nat) (a : String), ctx.Args[i]? = some a →
        ∃ p, uparts[i]? = some p ∧ completePart a = .ok p := by
  obtain ⟨ps, hps⟩ := exists_parts_of_wellformed ctx.Args hwf
  have hloop := completeLoop_ok ctx.Args [] ps hps
  rw [List.nil_append] at hloop
  refine ⟨ps, ?_, ?_, hps, ?_⟩
  · simp only [debugCompleteMultipart, hloop]
    cases debugClient.CompleteMultipartUpload _ <;> rfl
  · have := congrArg List.length hps
    simpa using this.symm
  · intro i a hi
    have h1 : (ctx.Args.map completePart)[i]? = (ps.map Except.ok)[i]? := by rw [hps]
    rw [List.getElem?_map, List.getElem?_map, hi] at h1
    cases hp : ps[i]? with
    | none => rw [hp] at h1; simp at h1
    | some p =>
      rw [hp] at h1
      simp only [Option.map_some', Option.some.injEq] at h1
      exact ⟨p, rfl, h1⟩

/-- C3, witness: the arguments `2.bb 1.aa`, in descending part number, are
submitted in that order. -/
theorem complete_submits_parts_in_order_witness :
    (∀ a ∈ (Context.ofFlags [("bucket", "b"), ("object", "o"), ("uploadid", "u")] [] []
        ["2.bb", "1.aa"]).Args, ¬ malformed a) ∧
    ∃ uparts : List CompletePart,
      (debugCompleteMultipart (Core.const (.ok "done") none)
        (Context.ofFlags [("bucket", "b"), ("object", "o"), ("uploadid", "u")] [] []
          ["2.bb", "1.aa"])).calls =
        [.CompleteMultipartUpload ⟨"b", "o", "u", uparts, ⟨none⟩⟩] ∧
      uparts.length = 2 ∧
      [completePart "2.bb", completePart "1.aa"] = uparts.map Except.ok ∧
      ∀ (i : Nat) (a : String), ["2.bb", "1.aa"][i]? = some a →
        ∃ p, uparts[i]? = some p ∧ completePart a = .ok p :=
  ⟨by decide,
    complete_submits_parts_in_order (Core.const (.ok "done") none)
      (Context.ofFlags [("bucket", "b"), ("object", "o"), ("uploadid", "u")] [] []
        ["2.bb", "1.aa"]) (by decide)⟩

/-- C10: when some argument is malformed, `debugCompleteMultipart` makes no
client call and prints nothing; it ends by stopping the process, with the
failure of the first malformed argument, however many well-formed arguments
come before it. -/
theorem complete_stops_at_first_malformed {R : Type} (debugClient : Core R) (ctx : Context)
    (h : ∃ a ∈ ctx.Args, malformed a) :
    (debugCompleteMultipart debugClient ctx).calls = [] ∧
    (debugCompleteMultipart debugClient ctx).stdout = [] ∧
    (debugCompleteMultipart debugClient ctx).outcome.terminated = true ∧
    ∃ pre a post, ctx.Args = pre ++ a :: post ∧ (∀ b ∈ pre, ¬ malformed b) ∧ malformed a ∧
      completePart a = .error (debugCompleteMultipart debugClient ctx).outcome := by
  obtain ⟨pre, a, post, e, hpre, ha⟩ := exists_first_malformed ctx.Args h
  obtain ⟨o, ho, hterm⟩ := completePart_error_of_malformed a ha
  have hloop : completeLoop ctx.Args [] = .error o := by
    rw [e]
    exact completeLoop_error pre a post [] o
      (fun b hb => completePart_ok_of_not_malformed b (hpre b hb)) ho
  have hrun : debugCompleteMultipart debugClient ctx = ⟨[], [], o⟩ := by
    simp only [debugCompleteMultipart, hloop]
  rw [hrun]
  exact ⟨rfl, rfl, hterm, pre, a, post, e, hpre, ha, ho⟩

/-- C10, witness: two well-formed arguments followed by `x.cc`: nothing is
submitted. -/
theorem complete_stops_at_first_malformed_witness :
    (∃ a ∈ (Context.ofFlags [("bucket", "b")] [] [] ["1.aa", "2.bb", "x.cc"]).Args,
      malformed a) ∧
    (debugCompleteMultipart (Core.const (.ok "done") none)
      (Context.ofFlags [("bucket", "b")] [] [] ["1.aa", "2.bb", "x.cc"])).calls = [] ∧
    (debugCompleteMultipart (Core.const (.ok "done") none)
      (Context.ofFlags [("bucket", "b")] [] [] ["1.aa", "2.bb", "x.cc"])).stdout = [] ∧
    (debugCompleteMultipart (Core.const (.ok "done") none)
      (Context.ofFlags [("bucket", "b")] [] [] ["1.aa", "2.bb", "x.cc"])).outcome.terminated
        = true :=
  ⟨⟨"x.cc", by decide, by decide⟩,
    (complete_stops_at_first_malformed (Core.const (.ok "done") none)
      (Context.ofFlags [("bucket", "b")] [] [] ["1.aa", "2.bb", "x.cc"])
      ⟨"x.cc", by decide, by decide⟩).1,
    (complete_stops_at_first_malformed (Core.const (.ok "done") none)
      (Context.ofFlags [("bucket", "b")] [] [] ["1.aa", "2.bb", "x.cc"])
      ⟨"x.cc", by decide, by decide⟩).2.1,
    (complete_stops_at_first_malformed (Core.const (.ok "done") none)
      (Context.ofFlags [("bucket", "b")] [] [] ["1.aa", "2.bb", "x.cc"])
      ⟨"x.cc", by decide, by decide⟩).2.2.1⟩

/-- C8 (as amended): every part that `debugCompleteMultipart` submits has the
part number `strconv.Atoi` read from the text before the first `.` of one of the
arguments, a value of Go's `int` (between `-2^63` and `2^63 - 1`); it is not
checked for being positive. -/
theorem complete_part_numbers_are_ints {R : Type} (debugClient : Core R) (ctx : Context)
    (a : CompleteMultipartUploadArgs)
    (h : Call.CompleteMultipartUpload a ∈ (debugCompleteMultipart debugClient ctx).calls) :
    ∀ p ∈ a.parts, -2 ^ 63 ≤ p.PartNumber ∧ p.PartNumber < 2 ^ 63 ∧
      ∃ arg ∈ ctx.Args, strconv.Atoi (firstField arg) = (p.PartNumber, none) := by
  intro p hp
  cases hloop : completeLoop ctx.Args [] with
  | error o => simp [debugCompleteMultipart, hloop] at h
  | ok uparts =>
    have ha : a.parts = uparts := by
      simp only [debugCompleteMultipart, hloop] at h
      cases hc : debugClient.CompleteMultipartUpload
        ⟨ctx.StringFlag "bucket", ctx.StringFlag "object", ctx.StringFlag "uploadid", uparts,
          ⟨none⟩⟩ <;>
        rw [hc] at h <;> simp at h <;> rw [h]
    obtain ⟨ps, e, hmap⟩ := completeLoop_ok_inv ctx.Args [] uparts hloop
    rw [List.nil_append] at e
    rw [ha, e] at hp
    have hmem : Except.ok p ∈ ctx.Args.map completePart := by
      rw [hmap]; exact List.mem_map_of_mem _ hp
    obtain ⟨arg, harg, hparse⟩ := List.mem_map.mp hmem
    have hnm := completePart_ok_not_malformed arg p hparse
    unfold malformed at hnm
    push_neg at hnm
    obtain ⟨md5sum, hwf⟩ := completePart_of_wellformed arg hnm.1 hnm.2
    rw [hparse] at hwf
    have hnum : p.PartNumber = (strconv.Atoi (firstField arg)).1 := by
      cases hwf; rfl
    have hat : strconv.Atoi (firstField arg) = (p.PartNumber, none) :=
      Prod.ext hnum.symm hnm.1
    have hb := strconv.atoiChars_bound _ _ hat
    exact ⟨hb.1, hb.2, arg, harg, hat⟩

/-- C8, witness: the parts submitted for `0.abc -1.abc 7.def`. -/
theorem complete_part_numbers_are_ints_witness :
    Call.CompleteMultipartUpload ⟨"b", "o", "u", [⟨0, "abc"⟩, ⟨-1, "abc"⟩, ⟨7, "def"⟩], ⟨none⟩⟩ ∈
      (debugCompleteMultipart (Core.const (.ok "done") none)
        (Context.ofFlags [("bucket", "b"), ("object", "o"), ("uploadid", "u")] [] []
          ["0.abc", "-1.abc", "7.def"])).calls ∧
    ∀ p ∈ [(⟨0, "abc"⟩ : CompletePart), ⟨-1, "abc"⟩, ⟨7, "def"⟩],
      -2 ^ 63 ≤ p.PartNumber ∧ p.PartNumber < 2 ^ 63 ∧
      ∃ arg ∈ ["0.abc", "-1.abc", "7.def"],
        strconv.Atoi (firstField arg) = (p.PartNumber, none) :=
  ⟨List.mem_singleton.mpr rfl,
    complete_part_numbers_are_ints (Core.const (.ok "done") none)
      (Context.ofFlags [("bucket", "b"), ("object", "o"), ("uploadid", "u")] [] []
        ["0.abc", "-1.abc", "7.def"])
      ⟨"b", "o", "u", [⟨0, "abc"⟩, ⟨-1, "abc"⟩, ⟨7, "def"⟩], ⟨none⟩⟩
      (List.mem_singleton.mpr rfl)⟩

/-- C8, counterexample: the arguments `0.abc` and `-1.abc` reach the
`CompleteMultipartUpload` call with the part numbers 0 and -1. -/
theorem complete_submits_nonpositive_part_numbers :
    (debugCompleteMultipart (Core.const (.ok "done") none)
      (Context.ofFlags [("bucket", "b"), ("object", "o"), ("uploadid", "u")] [] []
        ["0.abc", "-1.abc"])).calls =
      [.CompleteMultipartUpload ⟨"b", "o", "u", [⟨0, "abc"⟩, ⟨-1, "abc"⟩], ⟨none⟩⟩] ∧
    ¬ ((1 : Int) ≤ (⟨0, "abc"⟩ : CompletePart).PartNumber) ∧
    ¬ ((1 : Int) ≤ (⟨-1, "abc"⟩ : CompletePart).PartNumber) := by
  refine ⟨by rfl, by decide, by decide⟩

/-! ## Remote errors -/

/-- C4: `debugAbortMultipartUpload` never stops the process.  When the client's
`AbortMultipartUpload` returns an error `e`, the handler returns after one call
and one write, the payload with status `false` and message `e.Error()` (not
empty when the text of `e` is not); when the client returns no error, it
returns after writing the one payload with status `true`. -/
theorem abort_reports_without_terminating {R : Type} (debugClient : Core R) (ctx : Context) :
    (∀ e : GoError,
      debugClient.AbortMultipartUpload
          ⟨ctx.StringFlag "bucket", ctx.StringFlag "object", ctx.StringFlag "uploadid"⟩ = some e →
        debugAbortMultipartUpload debugClient ctx =
          ⟨[.AbortMultipartUpload
              ⟨ctx.StringFlag "bucket", ctx.StringFlag "object", ctx.StringFlag "uploadid"⟩],
            [.WriteJSON (.statusMsg false e.Error)], .returned⟩ ∧
        (e.Error ≠ "" → ∃ msg, msg ≠ "" ∧
          (debugAbortMultipartUpload debugClient ctx).stdout =
            [.WriteJSON (.statusMsg false msg)])) ∧
    (debugClient.AbortMultipartUpload
        ⟨ctx.StringFlag "bucket", ctx.StringFlag "object", ctx.StringFlag "uploadid"⟩ = none →
      debugAbortMultipartUpload debugClient ctx =
        ⟨[.AbortMultipartUpload
            ⟨ctx.StringFlag "bucket", ctx.StringFlag "object", ctx.StringFlag "uploadid"⟩],
          [.WriteJSON (.status true)], .returned⟩) ∧
    (debugAbortMultipartUpload debugClient ctx).outcome = .returned ∧
    (debugAbortMultipartUpload debugClient ctx).stdout.length = 1 := by
  refine ⟨?_, ?_, ?_, ?_⟩
  · intro e he
    have hrun : debugAbortMultipartUpload debugClient ctx =
        ⟨[.AbortMultipartUpload
            ⟨ctx.StringFlag "bucket", ctx.StringFlag "object", ctx.StringFlag "uploadid"⟩],
          [.WriteJSON (.statusMsg false e.Error)], .returned⟩ := by
      simp only [debugAbortMultipartUpload, he, handleOutput]
    refine ⟨hrun, fun hne => ⟨e.Error, hne, ?_⟩⟩
    rw [hrun]
  · intro he
    simp only [debugAbortMultipartUpload, he, handleOutput]
  · simp only [debugAbortMultipartUpload]
    split <;> rfl
  · simp only [debugAbortMultipartUpload]
    split <;> rfl

/-- C4, witness: aborting an upload the service does not know. -/
theorem abort_reports_without_terminating_witness :
    (Core.const (.ok "done") (some ⟨"The specified multipart upload does not exist."⟩)
      ).AbortMultipartUpload ⟨"b", "o", "u"⟩ =
        some ⟨"The specified multipart upload does not exist."⟩ ∧
    debugAbortMultipartUpload
        (Core.const (.ok "done") (some ⟨"The specified multipart upload does not exist."⟩))
        (Context.ofFlags [("bucket", "b"), ("object", "o"), ("uploadid", "u")] [] [] []) =
      ⟨[.AbortMultipartUpload ⟨"b", "o", "u"⟩],
        [.WriteJSON (.statusMsg false "The specified multipart upload does not exist.")],
        .returned⟩ :=
  ⟨rfl,
    ((abort_reports_without_terminating
      (Core.const (.ok "done") (some ⟨"The specified multipart upload does not exist."⟩))
      (Context.ofFlags [("bucket", "b"), ("object", "o"), ("uploadid", "u")] [] [] [])).1
      ⟨"The specified multipart upload does not exist."⟩ rfl).1⟩

/-- C5: each of `debugNewMultipart`, `debugUploadPart`, `debugCompleteMultipart`,
`debugListMultipartUploads` and `debugListUploadParts` makes at most one client
call, and the whole run is fixed by the answer to it.  `new`, `listuploads` and
`listparts` always make their call; `upload` makes it once the file is opened
and measured (a failed `os.Open` is fatal, a failed `Stat` panics, both before
any call); `complete` makes it once every argument is parsed.  When the call
returns an error `e` the run is that one call, no output, and `log.Fatal(e)`;
when it returns a result the run is that one call, the result written once
(the upload id as a string, the other results as JSON), and a normal return. -/
theorem handlers_fatal_on_client_error {R : Type} (debugClient : Core R) (os : OS)
    (ctx : Context) :
    ((debugNewMultipart debugClient ctx).calls.length ≤ 1 ∧
      (∀ e, debugClient.NewMultipartUpload
            ⟨ctx.StringFlag "bucket", ctx.StringFlag "object",
              ⟨if ctx.BoolFlag "encrypt" then some ServerSide.NewSSE else none⟩⟩ = .error e →
        debugNewMultipart debugClient ctx =
          ⟨[.NewMultipartUpload ⟨ctx.StringFlag "bucket", ctx.StringFlag "object",
              ⟨if ctx.BoolFlag "encrypt" then some ServerSide.NewSSE else none⟩⟩],
            [], .fatal (.error e)⟩) ∧
      (∀ r, debugClient.NewMultipartUpload
            ⟨ctx.StringFlag "bucket", ctx.StringFlag "object",
              ⟨if ctx.BoolFlag "encrypt" then some ServerSide.NewSSE else none⟩⟩ = .ok r →
        debugNewMultipart debugClient ctx =
          ⟨[.NewMultipartUpload ⟨ctx.StringFlag "bucket", ctx.StringFlag "object",
              ⟨if ctx.BoolFlag "encrypt" then some ServerSide.NewSSE else none⟩⟩],
            [.WriteString r], .returned⟩)) ∧
    ((debugUploadPart debugClient os ctx).calls.length ≤ 1 ∧
      (∀ e, os.Open (ctx.StringFlag "file") = .error e →
        debugUploadPart debugClient os ctx = ⟨[], [], .fatal (.error e)⟩) ∧
      (∀ f e, os.Open (ctx.StringFlag "file") = .ok f → os.Stat f = .error e →
        debugUploadPart debugClient os ctx = ⟨[], [], .panicked .nilDereference⟩) ∧
      (∀ f size, os.Open (ctx.StringFlag "file") = .ok f → os.Stat f = .ok size →
        (∀ e, debugClient.PutObjectPart
              ⟨ctx.StringFlag "bucket", ctx.StringFlag "object", ctx.StringFlag "uploadid",
                ctx.IntFlag "number", f, size⟩ = .error e →
          debugUploadPart debugClient os ctx =
            ⟨[.PutObjectPart ⟨ctx.StringFlag "bucket", ctx.StringFlag "object",
                ctx.StringFlag "uploadid", ctx.IntFlag "number", f, size⟩],
              [], .fatal (.error e)⟩) ∧
        (∀ r, debugClient.PutObjectPart
              ⟨ctx.StringFlag "bucket", ctx.StringFlag "object", ctx.StringFlag "uploadid",
                ctx.IntFlag "number", f, size⟩ = .ok r →
          debugUploadPart debugClient os ctx =
            ⟨[.PutObjectPart ⟨ctx.StringFlag "bucket", ctx.StringFlag "object",
                ctx.StringFlag "uploadid", ctx.IntFlag "number", f, size⟩],
              [.WriteJSON (.result r)], .returned⟩))) ∧
    ((debugCompleteMultipart debugClient ctx).calls.length ≤ 1 ∧
      (∀ uparts : List CompletePart, ctx.Args.map completePart = uparts.map Except.ok →
        (∀ e, debugClient.CompleteMultipartUpload
              ⟨ctx.StringFlag "bucket", ctx.StringFlag "object", ctx.StringFlag "uploadid",
                uparts, ⟨none⟩⟩ = .error e →
          debugCompleteMultipart debugClient ctx =
            ⟨[.CompleteMultipartUpload ⟨ctx.StringFlag "bucket", ctx.StringFlag "object",
                ctx.StringFlag "uploadid", uparts, ⟨none⟩⟩],
              [], .fatal (.error e)⟩) ∧
        (∀ r, debugClient.CompleteMultipartUpload
              ⟨ctx.StringFlag "bucket", ctx.StringFlag "object", ctx.StringFlag "uploadid",
                uparts, ⟨none⟩⟩ = .ok r →
          debugCompleteMultipart debugClient ctx =
            ⟨[.CompleteMultipartUpload ⟨ctx.StringFlag "bucket", ctx.StringFlag "object",
                ctx.StringFlag "uploadid", uparts, ⟨none⟩⟩],
              [.WriteJSON (.result r)], .returned⟩))) ∧
    ((debugListMultipartUploads debugClient ctx).calls.length ≤ 1 ∧
      (∀ e, debugClient.ListMultipartUploads
            ⟨ctx.StringFlag "bucket", ctx.StringFlag "keymarker",
              ctx.StringFlag "uploadidmarker", ctx.StringFlag "prefix",
              if ctx.BoolFlag "delimiter" then "/" else "", ctx.IntFlag "maxuploads"⟩ = .error e →
        debugListMultipartUploads debugClient ctx =
          ⟨[.ListMultipartUploads ⟨ctx.StringFlag "bucket", ctx.StringFlag "keymarker",
              ctx.StringFlag "uploadidmarker", ctx.StringFlag "prefix",
              if ctx.BoolFlag "delimiter" then "/" else "", ctx.IntFlag "maxuploads"⟩],
            [], .fatal (.error e)⟩) ∧
      (∀ r, debugClient.ListMultipartUploads
            ⟨ctx.StringFlag "bucket", ctx.StringFlag "keymarker",
              ctx.StringFlag "uploadidmarker", ctx.StringFlag "prefix",
              if ctx.BoolFlag "delimiter" then "/" else "", ctx.IntFlag "maxuploads"⟩ = .ok r →
        debugListMultipartUploads debugClient ctx =
          ⟨[.ListMultipartUploads ⟨ctx.StringFlag "bucket", ctx.StringFlag "keymarker",
              ctx.StringFlag "uploadidmarker", ctx.StringFlag "prefix",
              if ctx.BoolFlag "delimiter" then "/" else "", ctx.IntFlag "maxuploads"⟩],
            [.WriteJSON (.result r)], .returned⟩)) ∧
    ((debugListUploadParts debugClient ctx).calls.length ≤ 1 ∧
      (∀ e, debugClient.ListObjectParts
            ⟨ctx.StringFlag "bucket", ctx.StringFlag "object", ctx.StringFlag "uploadid",
              ctx.IntFlag "partmarker", ctx.IntFlag "maxparts"⟩ = .error e →
        debugListUploadParts debugClient ctx =
          ⟨[.ListObjectParts ⟨ctx.StringFlag "bucket", ctx.StringFlag "object",
              ctx.StringFlag "uploadid", ctx.IntFlag "partmarker", ctx.IntFlag "maxparts"⟩],
            [], .fatal (.error e)⟩) ∧
      (∀ r, debugClient.ListObjectParts
            ⟨ctx.StringFlag "bucket", ctx.StringFlag "object", ctx.StringFlag "uploadid",
              ctx.IntFlag "partmarker", ctx.IntFlag "maxparts"⟩ = .ok r →
        debugListUploadParts debugClient ctx =
          ⟨[.ListObjectParts ⟨ctx.StringFlag "bucket", ctx.StringFlag "object",
              ctx.StringFlag "uploadid", ctx.IntFlag "partmarker", ctx.IntFlag "maxparts"⟩],
            [.WriteJSON (.result r)], .returned⟩)) := by
  refine ⟨⟨?_, ?_, ?_⟩, ⟨?_, ?_, ?_, ?_⟩, ⟨?_, ?_⟩, ⟨?_, ?_, ?_⟩, ⟨?_, ?_, ?_⟩⟩
  · simp only [debugNewMultipart]
    split <;> simp
  · intro e he
    simp only [debugNewMultipart, he]
  · intro r hr
    simp only [debugNewMultipart, hr, handleOutput]
  · simp only [debugUploadPart]
    repeat' split
    all_goals simp
  · intro e he
    simp only [debugUploadPart, he]
  · intro f e hf he
    simp only [debugUploadPart, hf, he]
  · intro f size hf hs
    refine ⟨?_, ?_⟩
    · intro e he
      simp only [debugUploadPart, hf, hs, he]
    · intro r hr
      simp only [debugUploadPart, hf, hs, hr, handleOutput]
  · simp only [debugCompleteMultipart]
    repeat' split
    all_goals simp
  · intro uparts hparts
    have hloop := completeLoop_ok ctx.Args [] uparts hparts
    rw [List.nil_append] at hloop
    refine ⟨?_, ?_⟩
    · intro e he
      simp only [debugCompleteMultipart, hloop, he]
    · intro r hr
      simp only [debugCompleteMultipart, hloop, hr, handleOutput]
  · simp only [debugListMultipartUploads]
    split <;> simp
  · intro e he
    simp only [debugListMultipartUploads, he]
  · intro r hr
    simp only [debugListMultipartUploads, hr, handleOutput]
  · simp only [debugListUploadParts]
    split <;> simp
  · intro e he
    simp only [debugListUploadParts, he]
  · intro r hr
    simp only [debugListUploadParts, hr, handleOutput]

/-- C5, witness: `listparts` against a client that answers `AccessDenied` is
fatal with nothing printed, and `upload` of a five-byte file against a client
that accepts prints the returned part once and returns. -/
theorem handlers_fatal_on_client_error_witness :
    ((Core.const (.error ⟨"Access Denied."⟩) none).ListObjectParts ⟨"b", "o", "u", 0, 1⟩ =
        .error ⟨"Access Denied."⟩ ∧
      debugListUploadParts (Core.const (.error ⟨"Access Denied."⟩) none)
          (Context.ofFlags [("bucket", "b"), ("object", "o"), ("uploadid", "u")]
            [("maxparts", 1)] [] []) =
        ⟨[.ListObjectParts ⟨"b", "o", "u", 0, 1⟩], [], .fatal (.error ⟨"Access Denied."⟩)⟩) ∧
    ((OS.single "part.bin" 5).Open "part.bin" = .ok ⟨"part.bin"⟩ ∧
      (OS.single "part.bin" 5).Stat ⟨"part.bin"⟩ = .ok 5 ∧
      (Core.const (.ok "etag-1") none).PutObjectPart ⟨"b", "o", "u", 1, ⟨"part.bin"⟩, 5⟩ =
        .ok "etag-1" ∧
      debugUploadPart (Core.const (.ok "etag-1") none) (OS.single "part.bin" 5)
          (Context.ofFlags
            [("bucket", "b"), ("object", "o"), ("uploadid", "u"), ("file", "part.bin")]
            [("number", 1)] [] []) =
        ⟨[.PutObjectPart ⟨"b", "o", "u", 1, ⟨"part.bin"⟩, 5⟩],
          [.WriteJSON (.result "etag-1")], .returned⟩) :=
  ⟨⟨rfl,
      (handlers_fatal_on_client_error (Core.const (.error ⟨"Access Denied."⟩) none)
        (OS.single "part.bin" 5)
        (Context.ofFlags [("bucket", "b"), ("object", "o"), ("uploadid", "u")]
          [("maxparts", 1)] [] [])).2.2.2.2.2.1 ⟨"Access Denied."⟩ rfl⟩,
    ⟨rfl, rfl, rfl,
      ((handlers_fatal_on_client_error (Core.const (.ok "etag-1") none)
        (OS.single "part.bin" 5)
        (Context.ofFlags
          [("bucket", "b"), ("object", "o"), ("uploadid", "u"), ("file", "part.bin")]
          [("number", 1)] [] [])).2.1.2.2.2 ⟨"part.bin"⟩ 5 rfl rfl).2 "etag-1" rfl⟩⟩

/-! ## Listing uploads -/

/-- What `debugListMultipartUploads` passes, for every context: the bucket, the
delimiter and the bound arrive in their own parameters, but the three strings
of the cursor are rotated: `--keymarker` is passed as the operation's prefix,
`--uploadidmarker` as its key marker and `--prefix` as its upload-id marker. -/
theorem listMultipartUploads_call {R : Type} (debugClient : Core R) (ctx : Context) :
    ∃ a, (debugListMultipartUploads debugClient ctx).calls = [.ListMultipartUploads a] ∧
      a.bucket = ctx.StringFlag "bucket" ∧
      a.pfx = ctx.StringFlag "keymarker" ∧
      a.keyMarker = ctx.StringFlag "uploadidmarker" ∧
      a.uploadIDMarker = ctx.StringFlag "prefix" ∧
      a.delimiter = (if ctx.BoolFlag "delimiter" then "/" else "") ∧
      a.maxUploads = ctx.IntFlag "maxuploads" := by
  refine ⟨⟨ctx.StringFlag "bucket", ctx.StringFlag "keymarker", ctx.StringFlag "uploadidmarker",
    ctx.StringFlag "prefix", if ctx.BoolFlag "delimiter" then "/" else "",
    ctx.IntFlag "maxuploads"⟩, ?_, rfl, rfl, rfl, rfl, rfl, rfl⟩
  simp only [debugListMultipartUploads]
  split <;> rfl

/-- C6, the code at the failing input
`listuploads --bucket b --prefix p --keymarker k --uploadidmarker u --maxuploads 5`:
the operation receives prefix `k`, key marker `u` and upload-id marker `p`
(of the cursor, only the bound 5 arrives in its own parameter). -/
theorem listMultipartUploads_cursor_misplaced :
    (debugListMultipartUploads (Core.const (.ok "page") none)
      (Context.ofFlags
        [("bucket", "b"), ("prefix", "p"), ("keymarker", "k"), ("uploadidmarker", "u")]
        [("maxuploads", 5)] [] [])).calls =
      [.ListMultipartUploads ⟨"b", "k", "u", "p", "", 5⟩] ∧
    (⟨"b", "k", "u", "p", "", 5⟩ : ListMultipartUploadsArgs).pfx = "k" ∧
    (⟨"b", "k", "u", "p", "", 5⟩ : ListMultipartUploadsArgs).keyMarker = "u" ∧
    (⟨"b", "k", "u", "p", "", 5⟩ : ListMultipartUploadsArgs).uploadIDMarker = "p" ∧
    (⟨"b", "k", "u", "p", "", 5⟩ : ListMultipartUploadsArgs).maxUploads = 5 := by
  refine ⟨by rfl, rfl, rfl, rfl, rfl⟩

/-! ## Initiating an upload -/

/-- C9 (as amended): `debugNewMultipart` performs no local validation at all:
for every bucket and object, empty or not, it forwards both strings unchanged
in exactly one `NewMultipartUpload` call, with server-side encryption set if
and only if the `encrypt` flag is true. -/
theorem newMultipart_forwards_without_validation {R : Type} (debugClient : Core R)
    (ctx : Context) :
    ∃ a, (debugNewMultipart debugClient ctx).calls = [.NewMultipartUpload a] ∧
      a.bucket = ctx.StringFlag "bucket" ∧
      a.object = ctx.StringFlag "object" ∧
      (a.opts.ServerSideEncryption = some .NewSSE ↔ ctx.BoolFlag "encrypt" = true) ∧
      (a.opts.ServerSideEncryption = none ↔ ctx.BoolFlag "encrypt" = false) := by
  refine ⟨⟨ctx.StringFlag "bucket", ctx.StringFlag "object",
    ⟨if ctx.BoolFlag "encrypt" then some .NewSSE else none⟩⟩, ?_, rfl, rfl, ?_, ?_⟩
  · simp only [debugNewMultipart]
    split <;> rfl
  · cases ctx.BoolFlag "encrypt" <;> simp
  · cases ctx.BoolFlag "encrypt" <;> simp

/-- C9, counterexample: with an empty bucket (and with an empty object) the
handler does not fail locally: it asks the client to create the session, and
with a client that accepts, it prints the upload id and returns. -/
theorem newMultipart_forwards_empty_names :
    debugNewMultipart (Core.const (.ok "upload-1") none)
        (Context.ofFlags [("object", "o")] [] [] []) =
      ⟨[.NewMultipartUpload ⟨"", "o", ⟨none⟩⟩], [.WriteString "upload-1"], .returned⟩ ∧
    debugNewMultipart (Core.const (.ok "upload-1") none)
        (Context.ofFlags [("bucket", "b")] [] ["encrypt"] []) =
      ⟨[.NewMultipartUpload ⟨"b", "", ⟨some .NewSSE⟩⟩], [.WriteString "upload-1"], .returned⟩ := by
  refine ⟨by rfl, by rfl⟩

end MultipartDebug
